import Mathlib

/-!
Verification of the IBM MFM floppy-track codec (`src/greaseweazle/codec/ibm/mfm.py`).

This file shallowly embeds the codec: Python byte strings become `List Nat`
(each element `< 256`), the demodulated bit sequence becomes `List Bool`,
Python `int` arithmetic becomes `Nat`/`Int` arithmetic, and Python floats
(only used for the per-revolution timing) become `ℚ`.  Python's stable
`list.sort(key=...)` is modelled by `List.insertionSort` on the key order,
which is likewise stable.  Classes `IAM`/`IDAM`/`DAM`/`Sector` and the helper
functions `crc16` / `nr_missing` live in modules that are not part of the
source tree; they are modelled from the specification where noted.
-/

set_option maxRecDepth 40000

namespace GW

/-- Entry `encode_list[x]` of the 256-entry MFM encode table (source lines
354-360): the 8 data bits of `x` are spread into the odd (data) positions of a
16-bit word, the even (clock) positions staying 0. -/
def encodeByte (x : Nat) : Nat :=
  (List.range 8).foldl (fun y i => (y <<< 2) ||| ((x >>> (7 - i)) &&& 1)) 0

/-- `encode(dat)` (source lines 362-366): every input byte becomes the two
bytes of `encode_list[x]` packed big-endian (`struct.pack('>H', ...)`). -/
def encode (dat : List Nat) : List Nat :=
  (dat.map (fun x => [encodeByte x / 256, encodeByte x % 256])).flatten

/-- Entry `decode_list[x]` of the demodulation table (source lines 368-374):
bit `2*i` of `x` is collected into bit `i` of the result, for `i < 16`. -/
def decodeWord (x : Nat) : Nat :=
  (List.range 16).foldl (fun y i => if x &&& (1 <<< (i * 2)) ≠ 0 then y ||| (1 <<< i) else y) 0

/-- `decode(dat)` (source lines 376-380): input bytes are taken in big-endian
pairs (`zip(dat[::2], dat[1::2])` drops a trailing unpaired byte), masked with
`0x5555` and looked up in the table. -/
def decode : List Nat → List Nat
  | x :: y :: rest => decodeWord (((x <<< 8) ||| y) &&& 0x5555) :: decode rest
  | _ => []

/-- One iteration of the `mfm_encode` loop (source lines 343-352); `y` is the
previous output byte.  `0xaaaa ^^^ (w &&& 0xaaaa)` is Python's
`~w & 0xaaaa` (bitwise complement restricted to the mask). -/
def mfmStep (y x : Nat) : Nat :=
  let y1 := (y <<< 8) ||| x
  let y2 := if x &&& 0xaa = 0
    then y1 ||| (0xaaaa ^^^ (((y1 >>> 1) ||| (y1 <<< 1)) &&& 0xaaaa))
    else y1
  y2 &&& 255

/-- The `mfm_encode` loop with explicit carried previous byte. -/
def mfmGo (y : Nat) : List Nat → List Nat
  | [] => []
  | x :: rest => mfmStep y x :: mfmGo (mfmStep y x) rest

/-- `mfm_encode(dat)` (source lines 343-352): a sequential left-to-right scan
forcing clock bits into bytes with no odd (data) bit set, carrying one byte of
state; the carry starts at 0. -/
def mfm_encode (dat : List Nat) : List Nat := mfmGo 0 dat

theorem encode_length : ∀ dat : List Nat, (encode dat).length = 2 * dat.length
  | [] => rfl
  | x :: rest => by
    have ih := encode_length rest
    simp only [encode, List.map_cons, List.flatten_cons, List.length_append,
      List.length_cons, List.length_nil] at *
    omega

theorem decode_length : ∀ dat : List Nat, (decode dat).length = dat.length / 2
  | [] => rfl
  | [_] => by simp [decode]
  | _ :: _ :: rest => by
    have ih := decode_length rest
    simp only [decode, List.length_cons] at *
    omega

/-- Claim C10: for every input, `encode` returns exactly twice as many bytes
as its input, and `decode` returns exactly `⌊len/2⌋` bytes, silently ignoring
a trailing unpaired byte when the input length is odd. -/
theorem c10_encode_decode_lengths (dat : List Nat) :
    (encode dat).length = 2 * dat.length ∧ (decode dat).length = dat.length / 2 :=
  ⟨encode_length dat, decode_length dat⟩

theorem byte_roundtrip :
    ∀ x < 256, decodeWord ((((encodeByte x / 256) <<< 8) ||| (encodeByte x % 256)) &&& 0x5555) = x := by
  decide

theorem encode_cons (x : Nat) (rest : List Nat) :
    encode (x :: rest) = encodeByte x / 256 :: encodeByte x % 256 :: encode rest := by
  simp [encode]

theorem decode_encode : ∀ dat : List Nat, (∀ x ∈ dat, x < 256) → decode (encode dat) = dat
  | [], _ => rfl
  | x :: rest, h => by
    rw [encode_cons, decode, byte_roundtrip x (h x (List.mem_cons_self x rest)),
      decode_encode rest (fun a ha => h a (List.mem_cons_of_mem _ ha))]

/-- Claim C1: for every byte sequence `b`, `decode (encode b) = b`: encoding
each byte through the 256-entry table into 16 bit-cells and decoding via the
`0x5555`-masked pair lookup recovers the original bytes exactly. -/
theorem c1_decode_encode (dat : List Nat) (h : ∀ x ∈ dat, x < 256) :
    decode (encode dat) = dat :=
  decode_encode dat h

/-- Witness for C1 at a concrete byte sequence. -/
theorem c1_decode_encode_witness : decode (encode [0x4e, 0xa1, 0x00, 0xff]) = [0x4e, 0xa1, 0x00, 0xff] :=
  c1_decode_encode [0x4e, 0xa1, 0x00, 0xff] (by decide)

theorem shl_and_shr (a c n : Nat) : (a <<< n) &&& c = (a &&& (c >>> n)) <<< n := by
  apply Nat.eq_of_testBit_eq
  intro i
  rw [Nat.testBit_and, Nat.testBit_shiftLeft, Nat.testBit_shiftLeft, Nat.testBit_and,
    Nat.testBit_shiftRight]
  rcases Nat.lt_or_ge i n with h | h
  · have hd : decide (i ≥ n) = false := by simp [Nat.lt_iff_add_one_le] at *; omega
    simp [hd]
  · have hd : decide (i ≥ n) = true := by simpa using h
    have hni : n + (i - n) = i := by omega
    simp [hd, hni, Bool.and_assoc]

theorem shl8_and_small (y c : Nat) (hc : c < 256) : (y <<< 8) &&& c = 0 := by
  rw [shl_and_shr]
  have h8 : c >>> 8 = 0 := by
    rw [Nat.shiftRight_eq_div_pow]
    exact Nat.div_eq_of_lt (by norm_num at hc ⊢; omega)
  simp [h8]

theorem and_255_and_85 (z : Nat) : (z &&& 255) &&& 0x55 = z &&& 0x55 := by
  rw [Nat.and_assoc]
  have h : (255 &&& 0x55 : Nat) = 0x55 := by decide
  rw [h]

theorem clock_mask_and_85 (w : Nat) : (0xaaaa ^^^ (w &&& 0xaaaa)) &&& 0x55 = 0 := by
  rw [Nat.and_xor_distrib_right, Nat.and_assoc]
  have h1 : (0xaaaa &&& 0x55 : Nat) = 0 := by decide
  rw [h1]
  simp

/-- The clock-insertion step only touches even (clock) bit positions: the odd
(data) bits of the output byte agree with those of the input byte. -/
theorem mfmStep_and_85 (y x : Nat) : mfmStep y x &&& 0x55 = x &&& 0x55 := by
  have hy1 : ((y <<< 8) ||| x) &&& 0x55 = x &&& 0x55 := by
    rw [Nat.and_distrib_right, shl8_and_small y 0x55 (by norm_num), Nat.zero_or]
  simp only [mfmStep]
  split_ifs with hx
  · rw [and_255_and_85, Nat.and_distrib_right, clock_mask_and_85, Nat.or_zero, hy1]
  · rw [and_255_and_85, hy1]

theorem mfmStep_lt (y x : Nat) : mfmStep y x < 256 := by
  have h : mfmStep y x ≤ 255 := Nat.and_le_right
  omega

theorem and_mask_of_lt (b c : Nat) (hb : b < 256) : b &&& c = b &&& (c &&& 255) := by
  have h1 : b &&& 255 = b := by
    have h0 : b < 2 ^ 8 := lt_of_lt_of_le hb (by norm_num)
    have h2 := Nat.and_pow_two_sub_one_of_lt_two_pow h0
    norm_num at h2
    exact h2
  conv_lhs => rw [← h1]
  rw [Nat.and_assoc, Nat.and_comm 255 c]

theorem pair_and_5555 (a b : Nat) (hb : b < 256) :
    ((a <<< 8) ||| b) &&& 0x5555 = ((a &&& 0x55) <<< 8) ||| (b &&& 0x55) := by
  rw [Nat.and_distrib_right, shl_and_shr]
  have h1 : (0x5555 >>> 8 : Nat) = 0x55 := by decide
  have h2 : b &&& 0x5555 = b &&& 0x55 := by
    rw [and_mask_of_lt b 0x5555 hb]
    have h3 : (0x5555 &&& 255 : Nat) = 0x55 := by decide
    rw [h3]
  rw [h1, h2]

/-- Re-decoding after the clock-insertion pass gives the same bytes as
decoding the plain encoding: `decode (mfmGo y dat) = decode dat` whenever the
input is a byte sequence (any initial carry `y`). -/
theorem decode_mfmGo : ∀ (y : Nat) (dat : List Nat), (∀ x ∈ dat, x < 256) →
    decode (mfmGo y dat) = decode dat
  | _, [], _ => rfl
  | _, [_], _ => rfl
  | y, x1 :: x2 :: rest, h => by
    have h2 : x2 < 256 := h x2 (by simp)
    have hrest : ∀ x ∈ rest, x < 256 := fun a ha => h a (by simp [ha])
    simp only [mfmGo, decode]
    rw [decode_mfmGo _ rest hrest, pair_and_5555 _ _ (mfmStep_lt _ _), pair_and_5555 _ _ h2,
      mfmStep_and_85, mfmStep_and_85]

theorem encodeByte_lt : ∀ x < 256, encodeByte x < 65536 := by decide

theorem encode_bytes_lt (dat : List Nat) (h : ∀ x ∈ dat, x < 256) : ∀ b ∈ encode dat, b < 256 := by
  intro b hb
  simp only [encode, List.mem_flatten, List.mem_map] at hb
  obtain ⟨l, ⟨x, hx, rfl⟩, hbl⟩ := hb
  have he := encodeByte_lt x (h x hx)
  simp only [List.mem_cons, List.not_mem_nil, or_false] at hbl
  rcases hbl with rfl | rfl
  · omega
  · exact Nat.mod_lt _ (by norm_num)

/-- Claim C2: for every byte sequence `b`, `decode (mfm_encode (encode b)) = b`:
the clock-insertion post-pass `mfm_encode` only sets bits in even (clock)
positions, and only for bytes `x` with `x &&& 0xAA = 0`, so re-decoding through
the demodulator recovers the original data bytes unchanged. -/
theorem c2_decode_mfm_encode_encode (dat : List Nat) (h : ∀ x ∈ dat, x < 256) :
    decode (mfm_encode (encode dat)) = dat := by
  rw [mfm_encode, decode_mfmGo 0 (encode dat) (encode_bytes_lt dat h), decode_encode dat h]

/-- Witness for C2 at a concrete byte sequence. -/
theorem c2_decode_mfm_encode_encode_witness :
    decode (mfm_encode (encode [0x00, 0x4e, 0xf8, 0xff])) = [0x00, 0x4e, 0xf8, 0xff] :=
  c2_decode_mfm_encode_encode [0x00, 0x4e, 0xf8, 0xff] (by decide)

/-- Modelled from the spec: the ID-field area class `IDAM` of the `ibm` module
(not in the source tree): `IDField {start, end, crc, cylinder, head, sectorId,
sizeCode}`.  `fin` stands for the Python attribute `end` (a Lean keyword). -/
structure IDAM where
  start : Nat
  fin : Nat
  crc : Nat
  c : Nat
  h : Nat
  r : Nat
  n : Nat
deriving DecidableEq

/-- Modelled from the spec: the data-field area class `DAM` of the `ibm`
module: `DataField {start, end, crc, mark, data}`. -/
structure DAM where
  start : Nat
  fin : Nat
  crc : Nat
  mark : Nat
  data : List Nat
deriving DecidableEq

/-- Modelled from the spec: the index-mark area class `IAM` of the `ibm`
module: `IndexMark {start, end}`. -/
structure IAM where
  start : Nat
  fin : Nat
deriving DecidableEq

/-- Modelled from the spec: the composite area `Sector {idField, dataField}`
of the `ibm` module. -/
structure Sector where
  idam : IDAM
  dam : DAM
deriving DecidableEq

/-- Modelled from the spec: a sector's extent starts at its ID field. -/
def Sector.start (s : Sector) : Nat := s.idam.start

/-- Modelled from the spec: a sector's extent ends at its data field. -/
def Sector.fin (s : Sector) : Nat := s.dam.fin

/-- Modelled from the spec: "a sector is good when both child CRCs are zero",
i.e. the sector's own `crc` is the bitwise or of the two child CRCs (which the
source keeps in sync with the children on every mutation path). -/
def Sector.crc (s : Sector) : Nat := s.idam.crc ||| s.dam.crc

/-- Modelled from the spec: the address-mark byte values fixed by the IBM MFM
standard and inherited by `IBM_MFM` from the `ibm` module: index mark `0xFC`,
ID mark `0xFE`, data mark `0xFB`, deleted-data mark `0xF8`. -/
def IAM_MARK : Nat := 0xfc

/-- Modelled from the spec: the ID address mark byte value. -/
def IDAM_MARK : Nat := 0xfe

/-- Modelled from the spec: the data address mark byte value. -/
def DAM_MARK : Nat := 0xfb

/-- Modelled from the spec: the deleted-data address mark byte value. -/
def DDAM_MARK : Nat := 0xf8

/-- The union of area kinds appearing in the `areas` scratch list of
`decode_raw` (source lines 47-92). -/
inductive Area where
  | iamA : IAM → Area
  | idamA : IDAM → Area
  | damA : DAM → Area
  | secA : Sector → Area
deriving DecidableEq

def Area.start : Area → Nat
  | .iamA a => a.start
  | .idamA a => a.start
  | .damA a => a.start
  | .secA a => a.start

/-- The proximity test of the deduplication loop (source line 117):
`abs(s.start - a.start) < 1000` on Python signed integers. -/
def near (s a : Nat) : Bool := ((s : Int) - (a : Int)).natAbs < 1000

/-- One iteration of the merge loop (source lines 116-123) on the sector list:
find the first existing entry within 1000 bit-cells; replace it when the
existing sector has a nonzero CRC and the new one CRC zero (source line 118),
otherwise drop the new observation; append when no entry is near. -/
def mergeSector (prev : List Sector) (a : Sector) : List Sector :=
  match prev.findIdx? (fun t => near t.start a.start) with
  | some i =>
      match prev[i]? with
      | some s => if s.crc ≠ 0 ∧ a.crc = 0 then prev.set i a else prev
      | none => prev
  | none => prev ++ [a]

/-- One iteration of the merge loop on the IAM list: the replacement guard
`isinstance(a, Sector)` fails, so a nearby match just drops the new
observation. -/
def mergeIAM (prev : List IAM) (a : IAM) : List IAM :=
  match prev.findIdx? (fun t => near t.start a.start) with
  | some _ => prev
  | none => prev ++ [a]

/-- The track state mutated by `decode_raw`: the persistent deduplicated
`iams`/`sectors` lists plus the `has_iam` flag (source lines 57-58, 108-123). -/
structure TrackState where
  iams : List IAM
  sectors : List Sector
  hasIam : Bool
deriving DecidableEq

/-- One iteration of the merge step of `decode_raw` (source lines 109-123):
areas that are neither `IAM`s nor `Sector`s are skipped by the `continue`. -/
def addArea (st : TrackState) : Area → TrackState
  | .iamA a => { st with iams := mergeIAM st.iams a }
  | .secA a => { st with sectors := mergeSector st.sectors a }
  | _ => st

/-- The full merge step of `decode_raw` over the normalized area list. -/
def addAreas (st : TrackState) (areas : List Area) : TrackState :=
  areas.foldl addArea st

/-- Claim C3: in the merge step of `decode_raw`, when a first list entry
within 1000 bit-cells exists, a new sector observation replaces it exactly
when the existing entry's CRC is nonzero and the new one's is zero, and is
dropped as a duplicate otherwise; with no nearby entry it is appended as a new
distinct entry.  Consequently two revolutions holding the identical sector
merge to exactly one `Sector`, and a bad-CRC read followed by a good-CRC read
of the same sector merges to a sector with CRC 0. -/
theorem c3_decode_raw_merge :
    (∀ (prev : List Sector) (a s : Sector) (i : Nat),
        prev.findIdx? (fun t => near t.start a.start) = some i →
        prev[i]? = some s → s.crc ≠ 0 → a.crc = 0 →
        mergeSector prev a = prev.set i a)
    ∧ (∀ (prev : List Sector) (a s : Sector) (i : Nat),
        prev.findIdx? (fun t => near t.start a.start) = some i →
        prev[i]? = some s → (s.crc = 0 ∨ a.crc ≠ 0) →
        mergeSector prev a = prev)
    ∧ (∀ (prev : List Sector) (a : Sector),
        prev.findIdx? (fun t => near t.start a.start) = none →
        mergeSector prev a = prev ++ [a])
    ∧ (∀ s : Sector, (addAreas ⟨[], [], false⟩ [.secA s, .secA s]).sectors = [s])
    ∧ (∀ s₁ s₂ : Sector, near s₁.start s₂.start = true → s₁.crc ≠ 0 → s₂.crc = 0 →
        (addAreas ⟨[], [], false⟩ [.secA s₁, .secA s₂]).sectors = [s₂]) := by
  refine ⟨?_, ?_, ?_, ?_, ?_⟩
  · intro prev a s i hf hg hs ha
    simp only [mergeSector, hf, hg]
    rw [if_pos ⟨hs, ha⟩]
  · intro prev a s i hf hg hcrc
    simp only [mergeSector, hf, hg]
    rw [if_neg]
    rintro ⟨h1, h2⟩
    rcases hcrc with h | h
    · exact h1 h
    · exact h h2
  · intro prev a hf
    simp only [mergeSector, hf]
  · intro s
    have hnear : near s.start s.start = true := by
      simp [near]
    simp [addAreas, addArea, mergeSector, List.findIdx?, hnear]
  · intro s₁ s₂ hnear h1 h2
    simp [addAreas, addArea, mergeSector, List.findIdx?, hnear, h1, h2]

/-- Witness for C3: a concrete bad-CRC sector followed by a good-CRC read of
the same sector merges to the good one. -/
theorem c3_decode_raw_merge_witness :
    (addAreas ⟨[], [], false⟩
      [.secA ⟨⟨32, 192, 0xffff, 0, 0, 1, 2⟩, ⟨400, 8700, 0, 0xfb, []⟩⟩,
       .secA ⟨⟨40, 200, 0, 0, 0, 1, 2⟩, ⟨408, 8708, 0, 0xfb, []⟩⟩]).sectors
    = [⟨⟨40, 200, 0, 0, 0, 1, 2⟩, ⟨408, 8708, 0, 0xfb, []⟩⟩] :=
  c3_decode_raw_merge.2.2.2.2 _ _ (by decide) (by decide) (by decide)

theorem mem_mergeSector {prev : List Sector} {a x : Sector} (hx : x ∈ mergeSector prev a) :
    x ∈ prev ∨ x = a := by
  unfold mergeSector at hx
  split at hx
  · split at hx
    · split at hx
      · exact List.mem_or_eq_of_mem_set hx
      · exact Or.inl hx
    · exact Or.inl hx
  · rcases List.mem_append.1 hx with h | h
    · exact Or.inl h
    · simp at h
      exact Or.inr h

theorem mem_mergeIAM {prev : List IAM} {a x : IAM} (hx : x ∈ mergeIAM prev a) :
    x ∈ prev ∨ x = a := by
  unfold mergeIAM at hx
  split at hx
  · exact Or.inl hx
  · rcases List.mem_append.1 hx with h | h
    · exact Or.inl h
    · simp at h
      exact Or.inr h

theorem mem_addAreas_sectors : ∀ (areas : List Area) (st : TrackState) (x : Sector),
    x ∈ (addAreas st areas).sectors → x ∈ st.sectors ∨ Area.secA x ∈ areas
  | [], _, _, hx => Or.inl hx
  | a :: rest, st, x, hx => by
    rcases mem_addAreas_sectors rest (addArea st a) x hx with h1 | h1
    · cases a with
      | secA s =>
        rcases mem_mergeSector h1 with h2 | h2
        · exact Or.inl h2
        · subst h2
          exact Or.inr (List.mem_cons_self _ _)
      | iamA s => exact Or.inl h1
      | idamA s => exact Or.inl h1
      | damA s => exact Or.inl h1
    · exact Or.inr (List.mem_cons_of_mem _ h1)

theorem mem_addAreas_iams : ∀ (areas : List Area) (st : TrackState) (x : IAM),
    x ∈ (addAreas st areas).iams → x ∈ st.iams ∨ Area.iamA x ∈ areas
  | [], _, _, hx => Or.inl hx
  | a :: rest, st, x, hx => by
    rcases mem_addAreas_iams rest (addArea st a) x hx with h1 | h1
    · cases a with
      | iamA s =>
        rcases mem_mergeIAM h1 with h2 | h2
        · exact Or.inl h2
        · subst h2
          exact Or.inr (List.mem_cons_self _ _)
      | secA s => exact Or.inl h1
      | idamA s => exact Or.inl h1
      | damA s => exact Or.inl h1
    · exact Or.inr (List.mem_cons_of_mem _ h1)

/-- Claim C9: the merge step of `decode_raw` adds only `IAM` and paired
`Sector` areas to the track's persistent lists: a standalone ID field or data
field leaves the state unchanged, and every entry of the final lists is either
an entry of the initial lists or an `IAM`/`Sector` area of the scan output. -/
theorem c9_merge_only_iam_sector :
    (∀ (st : TrackState) (d : IDAM), addArea st (.idamA d) = st)
    ∧ (∀ (st : TrackState) (d : DAM), addArea st (.damA d) = st)
    ∧ (∀ (st : TrackState) (areas : List Area) (x : Sector),
        x ∈ (addAreas st areas).sectors → x ∈ st.sectors ∨ Area.secA x ∈ areas)
    ∧ (∀ (st : TrackState) (areas : List Area) (x : IAM),
        x ∈ (addAreas st areas).iams → x ∈ st.iams ∨ Area.iamA x ∈ areas) :=
  ⟨fun _ _ => rfl, fun _ _ => rfl,
   fun st areas x => mem_addAreas_sectors areas st x,
   fun st areas x => mem_addAreas_iams areas st x⟩

/-- Witness for C9: a sector found in the merged state after processing a
standalone ID field, a standalone data field and one sector must come from
the sector areas (the standalone fields cannot contribute it). -/
theorem c9_merge_only_iam_sector_witness :
    (⟨⟨0, 160, 0, 0, 0, 1, 2⟩, ⟨200, 2346, 0, 0xfb, []⟩⟩ : Sector) ∈
      ([] : List Sector) ∨
    Area.secA ⟨⟨0, 160, 0, 0, 0, 1, 2⟩, ⟨200, 2346, 0, 0xfb, []⟩⟩ ∈
      [Area.idamA ⟨5000, 5160, 7, 1, 1, 3, 2⟩,
       Area.damA ⟨7000, 7064, 0xffff, 0xfb, []⟩,
       Area.secA ⟨⟨0, 160, 0, 0, 0, 1, 2⟩, ⟨200, 2346, 0, 0xfb, []⟩⟩] :=
  c9_merge_only_iam_sector.2.2.1 ⟨[], [], false⟩
    [Area.idamA ⟨5000, 5160, 7, 1, 1, 3, 2⟩,
     Area.damA ⟨7000, 7064, 0xffff, 0xfb, []⟩,
     Area.secA ⟨⟨0, 160, 0, 0, 0, 1, 2⟩, ⟨200, 2346, 0, 0xfb, []⟩⟩]
    ⟨⟨0, 160, 0, 0, 0, 1, 2⟩, ⟨200, 2346, 0, 0xfb, []⟩⟩ (by decide)

/-- Big-endian bit expansion of one byte (`bitarray(endian='big').frombytes`). -/
def byteToBits (b : Nat) : List Bool :=
  (List.range 8).map (fun i => b.testBit (7 - i))

def bytesToBits (bs : List Nat) : List Bool := (bs.map byteToBits).flatten

/-- Value of the first (up to) 8 bits as one byte, the missing low bits
zero-padded (as `bitarray.tobytes` pads a trailing partial byte). -/
def bitsByte (l : List Bool) : Nat :=
  ((l.take 8).foldl (fun acc b => 2 * acc + (if b then 1 else 0)) 0) <<< (8 - (l.take 8).length)

/-- `bitarray.tobytes`: big-endian bytes of a bit sequence, eight bits per
byte, a trailing partial byte zero-padded. -/
def bitsToBytes : List Bool → List Nat
  | [] => []
  | b0 :: b1 :: b2 :: b3 :: b4 :: b5 :: b6 :: b7 :: rest =>
      bitsByte [b0, b1, b2, b3, b4, b5, b6, b7] :: bitsToBytes rest
  | l => [bitsByte l]

/-- Python slice `l[s:e]`. -/
def slice (l : List Bool) (s e : Nat) : List Bool := (l.take e).drop s

def searchFrom (pat : List Bool) : List Bool → Nat → List Nat
  | [], _ => []
  | l@(_ :: rest), i =>
      if pat.isPrefixOf l then i :: searchFrom pat rest (i + 1)
      else searchFrom pat rest (i + 1)

/-- `bitarray.itersearch(pat)`: the increasing list of all (also overlapping)
match offsets of `pat`. -/
def itersearch (pat bits : List Bool) : List Nat := searchFrom pat bits 0

/-- `iam_sync_bytes = b'\x52\x24' * 3` (source line 18). -/
def iam_sync_bytes : List Nat := [0x52, 0x24, 0x52, 0x24, 0x52, 0x24]

/-- The 48-bit index-mark sync pattern (source lines 19-20). -/
def iam_sync : List Bool := bytesToBits iam_sync_bytes

/-- `sync_bytes = b'\x44\x89' * 3` (source line 22). -/
def sync_bytes : List Nat := [0x44, 0x89, 0x44, 0x89, 0x44, 0x89]

/-- The 48-bit ID/data field sync pattern (source lines 23-24). -/
def sync : List Bool := bytesToBits sync_bytes

/-- Modelled from the spec: one input byte of the 16-bit CRC of the external
`crcmod` dependency (CCITT-FALSE: polynomial 0x1021, no reflection). -/
def crc16_update (crc b : Nat) : Nat :=
  (List.range 8).foldl
    (fun c _ => if c &&& 0x8000 ≠ 0 then ((c <<< 1) ^^^ 0x1021) &&& 0xffff else (c <<< 1) &&& 0xffff)
    ((crc ^^^ (b <<< 8)) &&& 0xffff)

/-- Modelled from the spec: `crc16.new(b).crcValue`, the CCITT-FALSE 16-bit
CRC with initial value 0xFFFF over a byte sequence. -/
def crc16 (dat : List Nat) : Nat := dat.foldl crc16_update 0xffff

/-- The index-mark scan of `decode_raw` (source lines 52-58): the collected
`IAM` areas and whether `has_iam` was set. -/
def scanIAM (bits : List Bool) : List Area × Bool :=
  (itersearch iam_sync bits).foldl
    (fun (st : List Area × Bool) offs =>
      if bits.length < offs + 4 * 16 then st
      else
        let mark := (decode (bitsToBytes (slice bits (offs + 3 * 16) (offs + 4 * 16)))).headD 0
        if mark = IAM_MARK then (st.1 ++ [.iamA ⟨offs, offs + 4 * 16⟩], true) else st)
    ([], false)

/-- The state of the ID/data sync scan: the pending ID field (`idam`, source
line 48) and the areas collected so far. -/
structure ScanState where
  idam : Option IDAM
  areas : List Area
deriving DecidableEq

/-- One iteration of the ID/data sync scan of `decode_raw` (source lines
61-89) at match offset `offs`.  A standalone data field's `data` attribute is
never assigned in the source; it is modelled as `[]`. -/
def scanStep (bits : List Bool) (st : ScanState) (offs : Nat) : ScanState :=
  if bits.length < offs + 4 * 16 then st
  else
    let mark := (decode (bitsToBytes (slice bits (offs + 3 * 16) (offs + 4 * 16)))).headD 0
    if mark = IDAM_MARK then
      if bits.length < offs + 10 * 16 then st
      else
        let b := decode (bitsToBytes (slice bits offs (offs + 10 * 16)))
        let areas := match st.idam with
          | some d => st.areas ++ [.idamA d]
          | none => st.areas
        ⟨some ⟨offs, offs + 10 * 16, crc16 b, b.getD 4 0, b.getD 5 0, b.getD 6 0, b.getD 7 0⟩, areas⟩
    else if mark = DAM_MARK ∨ mark = DDAM_MARK then
      match st.idam with
      | none => ⟨none, st.areas ++ [.damA ⟨offs, offs + 4 * 16, 0xffff, mark, []⟩]⟩
      | some d =>
          if (d.fin : Int) - (offs : Int) > 1000 then
            ⟨none, st.areas ++ [.damA ⟨offs, offs + 4 * 16, 0xffff, mark, []⟩]⟩
          else
            if bits.length < offs + (4 + (128 <<< d.n) + 2) * 16 then st
            else
              let b := decode (bitsToBytes (slice bits offs (offs + (4 + (128 <<< d.n) + 2) * 16)))
              ⟨none, st.areas ++
                [.secA ⟨d, ⟨offs, offs + (4 + (128 <<< d.n) + 2) * 16, crc16 b, mark,
                  (b.drop 4).dropLast.dropLast⟩⟩]⟩
    else st

/-- The ID/data sync scan of `decode_raw` (source lines 60-92), including the
flush of a still-pending ID field at end of stream. -/
def scanSync (bits : List Bool) : List Area :=
  let st := (itersearch sync bits).foldl (scanStep bits) ⟨none, []⟩
  match st.idam with
  | some d => st.areas ++ [.idamA d]
  | none => st.areas

/-- Modelled from the spec: the `delta` method of the area classes shifts an
extent to be relative to its revolution start (decoder step 4: "subtracting
the lower bound"). -/
def IDAM.delta (p : Nat) (a : IDAM) : IDAM := { a with start := a.start - p, fin := a.fin - p }

/-- Modelled from the spec: `delta` on a data field. -/
def DAM.delta (p : Nat) (a : DAM) : DAM := { a with start := a.start - p, fin := a.fin - p }

/-- Modelled from the spec: `delta` on any area (a sector shifts both its
children). -/
def Area.delta (p : Nat) : Area → Area
  | .iamA a => .iamA ⟨a.start - p, a.fin - p⟩
  | .idamA a => .idamA (a.delta p)
  | .damA a => .damA (a.delta p)
  | .secA s => .secA ⟨s.idam.delta p, s.dam.delta p⟩

/-- Python's stable `areas.sort(key=lambda x: x.start)` modelled by the
(likewise stable) insertion sort on the key order. -/
def sortByStart (l : List Area) : List Area :=
  l.insertionSort (fun a b => a.start ≤ b.start)

/-- The revolution-offset normalization of `decode_raw` (source lines 94-106):
sort the areas, walk them stepping through the revolution boundaries (`none`
models the final `float('inf')`), shift each area relative to its revolution
start, and re-sort.  (On an empty revolution list the source would raise
`StopIteration`; the model treats that case as one unbounded revolution.) -/
def normalize (revs : List Nat) (areas : List Area) : List Area :=
  let step : (Nat × Option Nat × List Nat) × List Area → Area →
      (Nat × Option Nat × List Nat) × List Area :=
    fun st a =>
      match st with
      | ((p, some nv, rest), out) =>
          if a.start ≥ nv then
            match rest with
            | x :: xs => ((nv, some (nv + x), xs), out ++ [a.delta nv])
            | [] => ((nv, none, []), out ++ [a.delta nv])
          else ((p, some nv, rest), out ++ [a.delta p])
      | ((p, none, rest), out) => ((p, none, rest), out ++ [a.delta p])
  sortByStart (((sortByStart areas).foldl step ((0, revs.head?, revs.tail), [])).2)

/-- The body of `IBM_MFM.decode_raw` (source lines 40-123) downstream of the
external flux/PLL stage: scan the demodulated bit sequence, normalize the
areas by revolution, and merge them into the track state. -/
def decode_raw (st : TrackState) (bits : List Bool) (revs : List Nat) : TrackState :=
  let scanned := scanIAM bits
  let areas := normalize revs (scanned.1 ++ scanSync bits)
  addAreas { st with hasIam := st.hasIam || scanned.2 } areas

/-- Kind tag and key offsets of an area: `(0, start, end)` for an index mark,
`(1, start, end)` for a standalone ID field, `(2, start, crc)` for a
standalone data field, `(3, ID-field end, data-field start)` for a paired
sector. -/
def Area.summary : Area → Nat × Nat × Nat
  | .iamA a => (0, a.start, a.fin)
  | .idamA a => (1, a.start, a.fin)
  | .damA a => (2, a.start, a.crc)
  | .secA s => (3, s.idam.fin, s.dam.start)

/-- A 1232-bit capture: a complete ID field spanning bits 0-160 (cylinder 0,
head 0, sector 1, size code 0), 1008 bit-cells of empty gap, then the field
sync pattern at bit 1168 followed by one encoded data-mark byte `0xFB` and
nothing else. -/
def farDamBytes : List Nat :=
  sync_bytes ++ encode [0xfe, 0x00, 0x00, 0x01, 0x00, 0x00, 0x00] ++ List.replicate 126 0 ++
  sync_bytes ++ encode [0xfb]

def farDamBits : List Bool := bytesToBits farDamBytes

/-- Claim C4 (divergence exhibit): in `farDamBits` the only data mark (sync
offset 1168) has no pending ID field within 1000 bit-cells — the ID field
ends at bit 160, 1008 cells earlier — so by the claim the scan must emit a
standalone `DataField` with CRC forced to 0xFFFF.  Instead the scan emits no
data field at all, only the end-of-stream flush of the pending ID field
(summary tag 1): source line 76 tests `idam.end - offs > 1000`, which cannot
hold for a data mark located after the ID field, so the far ID field is
paired and the pair is then dropped by the truncated-capture check. -/
theorem c4_far_dam_not_standalone :
    itersearch sync farDamBits = [0, 1168]
    ∧ (scanSync farDamBits).map Area.summary = [(1, 0, 160)] :=
  ⟨by decide, by decide⟩

/-- The key order of `sectors.sort(key=lambda x: x.idam.r)`. -/
def rleSec (a b : Sector) : Prop := a.idam.r ≤ b.idam.r

instance : DecidableRel rleSec := fun a b => Nat.decLe a.idam.r b.idam.r

instance : IsTotal Sector rleSec := ⟨fun a b => Nat.le_total a.idam.r b.idam.r⟩

instance : IsTrans Sector rleSec := ⟨fun _ _ _ => Nat.le_trans⟩

/-- The key order of `sectors.sort(key=lambda x: x.start)`. -/
def startleSec (a b : Sector) : Prop := a.start ≤ b.start

instance : DecidableRel startleSec := fun a b => Nat.decLe a.start b.start

/-- Python's stable `sectors.sort(key=lambda x: x.idam.r)` (source lines 202
and 224) modelled by the stable insertion sort. -/
def sortByR (l : List Sector) : List Sector := l.insertionSort rleSec

/-- Python's stable `sectors.sort(key=lambda x: x.start)` (source line 218). -/
def sortSecByStart (l : List Sector) : List Sector := l.insertionSort startleSec

/-- The assignment loop of `set_img_track` (source lines 210-217): walk the
id-sorted sectors carrying the buffer position `pos`, clear the CRCs and
install the per-sector slice `tdat[pos:pos+size]`. -/
def setImgLoop (imgBps : Option Nat) (tdat : List Nat) : Nat → List Sector → List Sector
  | _, [] => []
  | pos, s :: rest =>
      let size := 128 <<< s.idam.n
      let s' : Sector := ⟨{ s.idam with crc := 0 }, { s.dam with crc := 0, data := (tdat.drop pos).take size }⟩
      s' :: setImgLoop imgBps tdat (pos + (match imgBps with | some bps => bps | none => size)) rest

/-- `set_img_track` (source lines 200-219): sort by logical sector id,
compute `totsize`, zero-pad a short buffer to it, assign slices and clear the
CRCs, then re-sort by rotational position; returns the new sector list and
`totsize`.  (The sector's own `crc = 0` assignment needs no separate model
step: the modelled sector CRC is derived from the child CRCs.) -/
def set_img_track (imgBps : Option Nat) (sectors : List Sector) (tdat : List Nat) :
    List Sector × Nat :=
  let sorted := sortByR sectors
  let totsize := match imgBps with
    | some bps => sorted.length * bps
    | none => sorted.foldl (fun x y => x + (128 <<< y.idam.n)) 0
  let tdat2 := if tdat.length < totsize then tdat ++ List.replicate (totsize - tdat.length) 0 else tdat
  (sortSecByStart (setImgLoop imgBps tdat2 0 sorted), totsize)

/-- `get_img_track` (source lines 221-229): gather the data fields in logical
sector-id order, each padded up to `img_bps` when a fixed stride is
configured. -/
def get_img_track (imgBps : Option Nat) (sectors : List Sector) : List Nat :=
  (sortByR sectors).foldl
    (fun tdat s =>
      match imgBps with
      | some bps => tdat ++ s.dam.data ++ List.replicate (bps - s.dam.data.length) 0
      | none => tdat ++ s.dam.data)
    []

/-- Total default-stride capacity of a sector list: `Σ (128 << n)`. -/
def sumSizes (l : List Sector) : Nat := (l.map (fun s => 128 <<< s.idam.n)).sum

theorem foldl_sizes : ∀ (l : List Sector) (a : Nat),
    l.foldl (fun x y => x + (128 <<< y.idam.n)) a = a + sumSizes l
  | [], a => by simp [sumSizes]
  | s :: rest, a => by
    simp only [List.foldl_cons, foldl_sizes rest, sumSizes, List.map_cons, List.sum_cons]
    omega

theorem foldl_append_data : ∀ (l : List Sector) (acc : List Nat),
    l.foldl (fun td s => td ++ s.dam.data) acc = acc ++ (l.map (fun s => s.dam.data)).flatten
  | [], acc => by simp
  | s :: rest, acc => by
    simp [List.foldl_cons, foldl_append_data rest]

theorem setImgLoop_map_data (tdat : List Nat) : ∀ (l : List Sector) (pos : Nat),
    ((setImgLoop none tdat pos l).map (fun s => s.dam.data)).flatten
      = (tdat.drop pos).take (sumSizes l)
  | [], pos => by simp [setImgLoop, sumSizes]
  | s :: rest, pos => by
    simp only [setImgLoop, List.map_cons, List.flatten_cons, sumSizes, List.sum_cons,
      setImgLoop_map_data tdat rest]
    rw [List.take_add, List.drop_drop]

theorem setImgLoop_map_r (tdat : List Nat) : ∀ (l : List Sector) (pos : Nat),
    (setImgLoop none tdat pos l).map (fun s => s.idam.r) = l.map (fun s => s.idam.r)
  | [], _ => rfl
  | s :: rest, pos => by
    simp [setImgLoop, setImgLoop_map_r tdat rest]

theorem setImgLoop_crc (tdat : List Nat) : ∀ (l : List Sector) (pos : Nat) (s : Sector),
    s ∈ setImgLoop none tdat pos l → s.idam.crc = 0 ∧ s.dam.crc = 0
  | [], _, _, hs => by simp [setImgLoop] at hs
  | a :: rest, pos, s, hs => by
    simp only [setImgLoop, List.mem_cons] at hs
    rcases hs with rfl | hs
    · exact ⟨rfl, rfl⟩
    · exact setImgLoop_crc tdat rest _ s hs

theorem pairwise_r_of_map_eq {l₁ l₂ : List Sector}
    (hm : l₁.map (fun s => s.idam.r) = l₂.map (fun s => s.idam.r))
    (hs : l₂.Pairwise rleSec) : l₁.Pairwise rleSec := by
  have h₂ : (l₂.map (fun s => s.idam.r)).Pairwise (· ≤ ·) :=
    List.pairwise_map.mpr (hs.imp (fun h => h))
  rw [← hm] at h₂
  have h₃ := List.pairwise_map.mp h₂
  exact h₃

theorem eq_of_perm_sorted_r {l₁ l₂ : List Sector}
    (hp : l₁.Perm l₂)
    (hs₁ : l₁.Pairwise rleSec) (hs₂ : l₂.Pairwise rleSec)
    (hn : (l₁.map (fun s => s.idam.r)).Nodup) : l₁ = l₂ := by
  have hn₂ : (l₂.map (fun s => s.idam.r)).Nodup := ((hp.map _).nodup_iff).mp hn
  have hne₁ : l₁.Pairwise (fun a b => a.idam.r ≠ b.idam.r) := List.pairwise_map.mp hn
  have hne₂ : l₂.Pairwise (fun a b => a.idam.r ≠ b.idam.r) := List.pairwise_map.mp hn₂
  have hlt₁ : l₁.Pairwise (fun a b => a.idam.r < b.idam.r) :=
    (hs₁.and hne₁).imp (fun h => Nat.lt_of_le_of_ne h.1 h.2)
  have hlt₂ : l₂.Pairwise (fun a b => a.idam.r < b.idam.r) :=
    (hs₂.and hne₂).imp (fun h => Nat.lt_of_le_of_ne h.1 h.2)
  haveI : IsAntisymm Sector (fun a b => a.idam.r < b.idam.r) :=
    ⟨fun _ _ h1 h2 => absurd h2 (Nat.lt_asymm h1)⟩
  exact List.eq_of_perm_of_sorted hp hlt₁ hlt₂

/-- Claim C5: with pairwise-distinct logical sector ids,
`get_img_track (set_img_track buf)` reproduces `buf` zero-padded (or
truncated) to the total sector capacity `totsize`, the slices being assigned
and gathered in ascending sector-id order, and `set_img_track` clears all
sector, ID-field and data-field CRCs to 0. -/
theorem c5_img_roundtrip (sectors : List Sector) (tdat : List Nat)
    (hr : (sectors.map (fun s => s.idam.r)).Nodup) :
    get_img_track none (set_img_track none sectors tdat).1
      = (tdat ++ List.replicate ((set_img_track none sectors tdat).2 - tdat.length) 0).take
          (set_img_track none sectors tdat).2
    ∧ ∀ s ∈ (set_img_track none sectors tdat).1,
        s.idam.crc = 0 ∧ s.dam.crc = 0 ∧ s.crc = 0 := by
  have hsortedR : (sortByR sectors).Pairwise rleSec := List.sorted_insertionSort rleSec sectors
  have hnR : ((sortByR sectors).map (fun s => s.idam.r)).Nodup :=
    (((List.perm_insertionSort rleSec sectors).map _).nodup_iff).mpr hr
  have htot : (set_img_track none sectors tdat).2 = sumSizes (sortByR sectors) := by
    simp [set_img_track, foldl_sizes]
  set tot := sumSizes (sortByR sectors) with htotdef
  set tdat2 := if tdat.length < tot then tdat ++ List.replicate (tot - tdat.length) 0 else tdat
    with htdat2
  have hfst : (set_img_track none sectors tdat).1
      = sortSecByStart (setImgLoop none tdat2 0 (sortByR sectors)) := by
    simp only [set_img_track, htdat2, foldl_sizes, Nat.zero_add, htotdef, sumSizes]
  set L := setImgLoop none tdat2 0 (sortByR sectors) with hL
  have hmapr : L.map (fun s => s.idam.r) = (sortByR sectors).map (fun s => s.idam.r) :=
    setImgLoop_map_r tdat2 (sortByR sectors) 0
  have hLsorted : L.Pairwise rleSec := pairwise_r_of_map_eq hmapr hsortedR
  have hLnodup : (L.map (fun s => s.idam.r)).Nodup := by rw [hmapr]; exact hnR
  have hperm : (sortByR (sortSecByStart L)).Perm L :=
    (List.perm_insertionSort rleSec _).trans (List.perm_insertionSort startleSec L)
  have hresorted : (sortByR (sortSecByStart L)).Pairwise rleSec :=
    List.sorted_insertionSort rleSec _
  have hrenodup : ((sortByR (sortSecByStart L)).map (fun s => s.idam.r)).Nodup :=
    ((hperm.map _).nodup_iff).mpr hLnodup
  have hsame : sortByR (sortSecByStart L) = L :=
    eq_of_perm_sorted_r hperm hresorted hLsorted hrenodup
  constructor
  · rw [hfst, htot]
    show (sortByR (sortSecByStart L)).foldl (fun td s => td ++ s.dam.data) [] = _
    rw [hsame, foldl_append_data, setImgLoop_map_data tdat2 (sortByR sectors) 0,
      List.drop_zero, List.nil_append]
    rcases Nat.lt_or_ge tdat.length tot with hlen | hlen
    · rw [htdat2, if_pos hlen]
    · rw [htdat2, if_neg (Nat.not_lt.mpr hlen)]
      have hz : tot - tdat.length = 0 := by omega
      rw [hz, List.replicate_zero, List.append_nil]
  · intro s hs
    rw [hfst] at hs
    have hs2 : s ∈ L := ((List.perm_insertionSort startleSec L).mem_iff).mp hs
    obtain ⟨h1, h2⟩ := setImgLoop_crc tdat2 (sortByR sectors) 0 s hs2
    refine ⟨h1, h2, ?_⟩
    simp [Sector.crc, h1, h2]

/-- Witness for C5: a two-sector track (ids 2 and 1, size code 0) with a
3-byte buffer round-trips to the buffer zero-padded to 256 bytes, CRCs
cleared. -/
theorem c5_img_roundtrip_witness :
    get_img_track none (set_img_track none
        [⟨⟨100, 260, 7, 0, 0, 2, 0⟩, ⟨300, 2444, 7, 0xfb, [9]⟩⟩,
         ⟨⟨3000, 3160, 7, 0, 0, 1, 0⟩, ⟨3200, 5344, 7, 0xfb, [8]⟩⟩]
        [5, 6, 7]).1
      = ([5, 6, 7] ++ List.replicate (256 - 3) 0).take 256
    ∧ ∀ s ∈ (set_img_track none
        [⟨⟨100, 260, 7, 0, 0, 2, 0⟩, ⟨300, 2444, 7, 0xfb, [9]⟩⟩,
         ⟨⟨3000, 3160, 7, 0, 0, 1, 0⟩, ⟨3200, 5344, 7, 0xfb, [8]⟩⟩]
        [5, 6, 7]).1,
        s.idam.crc = 0 ∧ s.dam.crc = 0 ∧ s.crc = 0 := by
  have h := c5_img_roundtrip
    [⟨⟨100, 260, 7, 0, 0, 2, 0⟩, ⟨300, 2444, 7, 0xfb, [9]⟩⟩,
     ⟨⟨3000, 3160, 7, 0, 0, 1, 0⟩, ⟨3200, 5344, 7, 0xfb, [8]⟩⟩]
    [5, 6, 7] (by decide)
  have htot : (set_img_track none
      [⟨⟨100, 260, 7, 0, 0, 2, 0⟩, ⟨300, 2444, 7, 0xfb, [9]⟩⟩,
       ⟨⟨3000, 3160, 7, 0, 0, 1, 0⟩, ⟨3200, 5344, 7, 0xfb, [8]⟩⟩]
      [5, 6, 7]).2 = 256 := by decide
  rw [htot] at h
  simpa using h

/-- The configuration surface consumed by `from_config` (spec §6; the class
itself lives outside the source tree). -/
structure Config where
  secs : Nat
  sz : List Nat
  id : Nat
  h : Option Nat
  cskew : Nat
  hskew : Nat
  interleave : Nat
  iam : Bool
  gap1 : Option Nat
  gap2 : Option Nat
  gap3 : Option Nat
  gap4a : Option Nat
  rate : Nat
  rpm : Nat
  img_bps : Option Nat
deriving DecidableEq

/-- The formatted track built by `from_config` and mutated by the
`IBM_MFM_Formatted` operations; Python floats (`time_per_rev`, `clock`) are
modelled as rationals. -/
structure FmtTrack where
  cyl : Nat
  head : Nat
  iams : List IAM
  sectors : List Sector
  rawIams : List IAM
  rawSectors : List Sector
  hasIam : Bool
  nsec : Nat
  imgBps : Option Nat
  time_per_rev : ℚ
  clock : ℚ

/-- `GAP_3` per-size-code maxima (source line 249).  (The source would raise
`IndexError` for a size code above 7; the model returns 0 there.) -/
def GAP_3_TABLE : List Nat := [32, 54, 84, 116, 255, 255, 255, 255]

/-- `sec_n(i)` (source lines 254-255): the size-code list, its last entry
repeating.  (On an empty list the source would raise; the model returns 0.) -/
def secN (sz : List Nat) (i : Nat) : Nat :=
  if h : i < sz.length then sz.get ⟨i, h⟩ else sz.getLastD 0

/-- `maxlen = ((50000*300//rpm) << i) + 5000` for tier `i` (source line 284). -/
def maxlen (rpm i : Nat) : Nat := ((50000 * 300 / rpm) <<< i) + 5000

/-- The tier index selected by the auto-rate loop (source lines 283-286):
tiers 1 (DD), 2 (HD), 3 (ED); the first whose `maxlen` exceeds `tracklen`,
tier 3 when none qualifies (the loop variable retains its last value). -/
def chooseRateIdx (tracklen rpm : Nat) : Nat :=
  if tracklen < maxlen rpm 1 then 1 else if tracklen < maxlen rpm 2 then 2 else 3

/-- `rate = 125 << i` after the auto-rate loop (source line 287). -/
def chooseRate (tracklen rpm : Nat) : Nat := 125 <<< chooseRateIdx tracklen rpm

/-- `gap_1` (source lines 261-264): `None` when no IAM is configured. -/
def fcGap1 (config : Config) : Option Nat :=
  if config.iam then some (config.gap1.getD 50) else none

/-- `gap_2` before the ED override (source line 265). -/
def fcGap2 (config : Config) : Nat := config.gap2.getD 22

/-- `gap_4a` (source line 267). -/
def fcGap4a (config : Config) : Nat := config.gap4a.getD 80

/-- `tracklen` after adding the per-sector sizes and scaling to bitcells
(source lines 269-279). -/
def fcTracklen1 (config : Config) : Nat :=
  let idx_sz := fcGap4a config + (match fcGap1 config with | some g => 12 + 4 + g | none => 0)
  let idam_sz := 12 + 8 + 2 + fcGap2 config
  let dam_sz_pre := 12 + 4
  let dam_sz_post := 2 + config.gap3.getD 0
  (idx_sz + (idam_sz + dam_sz_pre + dam_sz_post) * config.secs
    + (List.range config.secs).foldl (fun t i => t + (128 <<< secN config.sz i)) 0) * 16

/-- The effective data rate (source lines 281-287): the configured rate, or
the auto-selected one when it is 0. -/
def fcRate (config : Config) : Nat :=
  if config.rate = 0 then chooseRate (fcTracklen1 config) config.rpm else config.rate

/-- `gap_2` after the ED-rate default override to 41 (source lines 289-293). -/
def fcGap2b (config : Config) : Nat :=
  if config.gap2 = none ∧ 1000 ≤ fcRate config then 41 else fcGap2 config

/-- `tracklen` after the ED-rate override (source line 294). -/
def fcTracklen2 (config : Config) : Nat :=
  if config.gap2 = none ∧ 1000 ≤ fcRate config then
    fcTracklen1 config + 16 * config.secs * (41 - fcGap2 config)
  else fcTracklen1 config

/-- `tracklen_bc` implied by the nominal rate (source line 296). -/
def fcTracklenBC0 (config : Config) : Nat := fcRate config * 400 * 300 / config.rpm

/-- `gap_3` after the auto computation (source lines 298-302): the leftover
bitcells split evenly across sectors, capped by the per-size-code maximum
(`max(0, ...)` is the truncated natural subtraction). -/
def fcGap3 (config : Config) : Nat :=
  if config.secs ≠ 0 ∧ config.gap3 = none then
    min ((fcTracklenBC0 config - fcTracklen2 config) / (16 * config.secs))
        (GAP_3_TABLE.getD (secN config.sz 0) 0)
  else config.gap3.getD 0

/-- `tracklen` after folding the auto `gap_3` back in (source line 303). -/
def fcTracklen3 (config : Config) : Nat :=
  if config.secs ≠ 0 ∧ config.gap3 = none then
    fcTracklen2 config + 16 * config.secs * fcGap3 config
  else fcTracklen2 config

/-- The final per-revolution bitcell count (source line 305). -/
def fcTracklenBC (config : Config) : Nat := max (fcTracklenBC0 config) (fcTracklen3 config)

/-- The occupied-slot scan of the interleave loop (`while sec_map[pos] != -1`,
source lines 315-316); the fuel (the map length) suffices because the source
only runs the loop when a free slot exists within one wrap-around. -/
def findFree (m : List Int) : Nat → Nat → Nat
  | 0, pos => pos
  | fuel + 1, pos => if m.getD pos (-1) ≠ -1 then findFree m fuel ((pos + 1) % m.length) else pos

/-- The logical-sector-map construction (source lines 311-318): rotational
slot ↦ logical index, stepping by the interleave from a skew-dependent start
(`-1` marks a free slot). -/
def buildSecMap (nsec interleave startPos : Nat) : List Int :=
  ((List.range nsec).foldl
    (fun (st : List Int × Nat) i =>
      let p := findFree st.1 st.1.length st.2
      (st.1.set p i, (p + interleave) % nsec))
    (List.replicate nsec (-1), startPos)).1

/-- The 16-byte placeholder fill `b'-=[BAD SECTOR]=-'` (source line 336). -/
def badSectorChunk : List Nat :=
  [0x2d, 0x3d, 0x5b, 0x42, 0x41, 0x44, 0x20, 0x53, 0x45, 0x43, 0x54, 0x4f, 0x52, 0x5d, 0x3d, 0x2d]

/-- `b'-=[BAD SECTOR]=-' * (size//16)` (source line 336). -/
def badSectorData (size : Nat) : List Nat := (List.replicate (size / 16) badSectorChunk).flatten

/-- `IBM_MFM_Formatted.from_config` (source lines 251-340): deterministic
synthesis of a formatted track from a configuration.  The gap/length
arithmetic is in the `fc*` stage functions above; here the index mark is
placed and the ID/data fields are walked in rotational order. -/
def from_config (config : Config) (cyl head : Nat) : FmtTrack :=
  let nsec := config.secs
  let gap_2 := fcGap2b config
  let gap_3 := fcGap3 config
  let startPos := if nsec ≠ 0 then (cyl * config.cskew + head * config.hskew) % nsec else 0
  let sec_map := buildSecMap nsec config.interleave startPos
  let pos0 := fcGap4a config
  let iamsPos : List IAM × Nat :=
    match fcGap1 config with
    | some g => ([⟨(pos0 + 12) * 16, (pos0 + 12 + 4) * 16⟩], pos0 + 12 + 4 + g)
    | none => ([], pos0)
  let hd := config.h.getD head
  let secLoop := (List.range nsec).foldl
    (fun (st : List Sector × Nat) i =>
      let sec := (sec_map.getD i (-1)).toNat
      let p1 := st.2 + 12
      let n := secN config.sz sec
      let size := 128 <<< n
      let p2 := p1 + 10 + gap_2 + 12
      (st.1 ++ [⟨⟨p1 * 16, (p1 + 10) * 16, 0xffff, cyl, hd, config.id + sec, n⟩,
                 ⟨p2 * 16, (p2 + 4 + size + 2) * 16, 0xffff, DAM_MARK, badSectorData size⟩⟩],
       p2 + 4 + size + 2 + gap_3))
    ([], iamsPos.2)
  { cyl := cyl, head := head, iams := iamsPos.1, sectors := secLoop.1,
    rawIams := [], rawSectors := [], hasIam := false, nsec := nsec,
    imgBps := config.img_bps,
    time_per_rev := 60 / (config.rpm : ℚ),
    clock := (60 / (config.rpm : ℚ)) / (fcTracklenBC config : ℚ) }

/-- The example configuration of claim C6: 9 sectors of size code 2,
interleave 1, no skew, 250 kbit/s, 300 rpm, first id 1, with IAM. -/
def c6cfg : Config :=
  ⟨9, [2, 2, 2, 2, 2, 2, 2, 2, 2], 1, none, 0, 0, 1, true,
   none, none, none, none, 250, 300, none⟩

/-- Claim C6: `from_config` on the example configuration (cylinder 0, head 0)
produces exactly 9 sectors with ids 1..9 in ascending rotational
(start-offset) order, each of size code 2 with a 512-byte data field, and a
bitcell clock period of `time_per_rev = 60/300` divided by the computed
bitcell count (100000, the double-density nominal length). -/
theorem c6_from_config_example :
    (from_config c6cfg 0 0).sectors.length = 9
    ∧ (from_config c6cfg 0 0).sectors.map (fun s => s.idam.r) = [1, 2, 3, 4, 5, 6, 7, 8, 9]
    ∧ ((from_config c6cfg 0 0).sectors.map Sector.start).Pairwise (· < ·)
    ∧ (from_config c6cfg 0 0).sectors.map (fun s => s.idam.n) = List.replicate 9 2
    ∧ (from_config c6cfg 0 0).sectors.map (fun s => s.dam.data.length) = List.replicate 9 512
    ∧ fcTracklenBC c6cfg = 100000
    ∧ (from_config c6cfg 0 0).time_per_rev = (60 / 300 : ℚ)
    ∧ (from_config c6cfg 0 0).clock = (60 / 300 : ℚ) / 100000 := by
  refine ⟨by decide, by decide, by decide, by decide, by decide, by decide, ?_, ?_⟩
  · show (60 / ((300 : Nat) : ℚ)) = (60 / 300 : ℚ)
    norm_num
  · show (60 / ((300 : Nat) : ℚ)) / ((fcTracklenBC c6cfg : Nat) : ℚ) = (60 / 300 : ℚ) / 100000
    have hbc : fcTracklenBC c6cfg = 100000 := by decide
    rw [hbc]
    norm_num

/-- Claim C7: for every configuration with `rate = 0`, the rate selected by
`from_config` (its `fcRate` stage) is `125 << i` for the smallest tier
`i ∈ {1, 2, 3}` (DD 250, HD 500, ED 1000 kbit/s) whose maximum supported
track length at the configured rotational speed exceeds the computed total
bitcell length. -/
theorem c7_auto_rate_smallest (config : Config) (hrate : config.rate = 0)
    (hex : ∃ i, 1 ≤ i ∧ i ≤ 3 ∧ fcTracklen1 config < maxlen config.rpm i) :
    ∃ i, 1 ≤ i ∧ i ≤ 3 ∧ fcRate config = 125 <<< i
      ∧ fcTracklen1 config < maxlen config.rpm i
      ∧ ∀ j, 1 ≤ j → j < i → maxlen config.rpm j ≤ fcTracklen1 config := by
  have hunfold : fcRate config = chooseRate (fcTracklen1 config) config.rpm := by
    simp [fcRate, hrate]
  rcases Nat.lt_or_ge (fcTracklen1 config) (maxlen config.rpm 1) with h1 | h1
  · refine ⟨1, Nat.le_refl 1, by omega, ?_, h1, ?_⟩
    · rw [hunfold, chooseRate, chooseRateIdx, if_pos h1]
    · intro j hj1 hj2
      omega
  · rcases Nat.lt_or_ge (fcTracklen1 config) (maxlen config.rpm 2) with h2 | h2
    · refine ⟨2, by omega, by omega, ?_, h2, ?_⟩
      · rw [hunfold, chooseRate, chooseRateIdx, if_neg (Nat.not_lt.mpr h1), if_pos h2]
      · intro j hj1 hj2
        have hj : j = 1 := by omega
        rw [hj]
        exact h1
    · have h3 : fcTracklen1 config < maxlen config.rpm 3 := by
        rcases hex with ⟨i, hi1, hi3, hlt⟩
        have : i = 1 ∨ i = 2 ∨ i = 3 := by omega
        rcases this with rfl | rfl | rfl
        · exact absurd hlt (Nat.not_lt.mpr h1)
        · exact absurd hlt (Nat.not_lt.mpr h2)
        · exact hlt
      refine ⟨3, by omega, Nat.le_refl 3, ?_, h3, ?_⟩
      · rw [hunfold, chooseRate, chooseRateIdx, if_neg (Nat.not_lt.mpr h1),
          if_neg (Nat.not_lt.mpr h2)]
      · intro j hj1 hj2
        have hj : j = 1 ∨ j = 2 := by omega
        rcases hj with rfl | rfl
        · exact h1
        · exact h2

/-- The C6 example configuration with the rate left unspecified. -/
def c7cfg : Config := { c6cfg with rate := 0 }

/-- Witness for C7: on the 9-sector double-density example with `rate = 0`,
the selected tier exists and satisfies the minimality property. -/
theorem c7_auto_rate_smallest_witness :
    ∃ i, 1 ≤ i ∧ i ≤ 3 ∧ fcRate c7cfg = 125 <<< i
      ∧ fcTracklen1 c7cfg < maxlen c7cfg.rpm i
      ∧ ∀ j, 1 ≤ j → j < i → maxlen c7cfg.rpm j ≤ fcTracklen1 c7cfg :=
  c7_auto_rate_smallest c7cfg (by decide) ⟨1, by decide, by decide, by decide⟩

/-- Modelled from the spec: `IBMTrack.nr_missing` of the `ibm` module counts
the sectors still carrying a nonzero CRC — the missing/bad tally that
`summary_string` (source lines 34-37) subtracts from the sector count. -/
def nr_missing (t : FmtTrack) : Nat := (t.sectors.filter (fun s => s.crc != 0)).length

/-- `IBM_MFM_Formatted.decode_raw` (source lines 174-198): run the base
decoder against the raw lists (the list-swap of lines 175-178 is modelled by
passing them explicitly), then fold each raw sector with a good ID CRC into
every expected sector with the same (c, h, r, n): clear the expected ID CRC,
and when the raw data read is good and the expected one bad, install the raw
data and clear the data CRC.  The `mismatches` set only feeds a diagnostic
print and is not modelled. -/
def fmt_decode_raw (t : FmtTrack) (bits : List Bool) (revs : List Nat) : FmtTrack :=
  let rawSt := decode_raw ⟨t.rawIams, t.rawSectors, t.hasIam⟩ bits revs
  let sectors := rawSt.sectors.foldl
    (fun (secs : List Sector) r =>
      if r.idam.crc = 0 then
        secs.map (fun s =>
          if s.idam.c = r.idam.c ∧ s.idam.h = r.idam.h ∧ s.idam.r = r.idam.r
              ∧ s.idam.n = r.idam.n then
            if r.dam.crc = 0 ∧ s.dam.crc ≠ 0 then
              ⟨{ s.idam with crc := 0 }, { s.dam with crc := 0, data := r.dam.data }⟩
            else ⟨{ s.idam with crc := 0 }, s.dam⟩
          else s)
      else secs)
    t.sectors
  { t with
    rawIams := rawSt.iams,
    rawSectors := rawSt.sectors,
    hasIam := rawSt.hasIam,
    sectors := sectors }

/-- The throw-away readback track of `verify_track` (source lines 232-241):
a fresh formatted track for the same cylinder/head and timing, pre-populated
with copies of the expected index marks and sectors, the sector CRCs forced
to the 0xFFFF sentinel, after decoding the supplied flux into it.  (The
fresh instance never sets `nsec`; the model uses 0.) -/
def vfyReadback (t : FmtTrack) (bits : List Bool) (revs : List Nat) : FmtTrack :=
  fmt_decode_raw
    { cyl := t.cyl, head := t.head, iams := t.iams,
      sectors := t.sectors.map
        (fun s => ⟨{ s.idam with crc := 0xffff }, { s.dam with crc := 0xffff }⟩),
      rawIams := [], rawSectors := [], hasIam := false, nsec := 0, imgBps := none,
      time_per_rev := t.time_per_rev, clock := t.clock }
    bits revs

/-- `verify_track` (source lines 231-244): false when an ID/data pair is
missing, otherwise the by-value comparison of the sector lists. -/
def verify_track (t : FmtTrack) (bits : List Bool) (revs : List Nat) : Bool :=
  let rb := vfyReadback t bits revs
  if nr_missing rb ≠ 0 then false
  else decide (t.sectors = rb.sectors)

/-- Claim C8: `verify_track` is a total boolean function — the model never
raises — and returns `true` exactly when, after decoding the supplied flux
into a throw-away track pre-populated with copies of the expected sectors
whose CRCs are forced to 0xFFFF, no ID/data pair is missing and the resulting
sector list equals the expected sector list by value. -/
theorem c8_verify_track_iff (t : FmtTrack) (bits : List Bool) (revs : List Nat) :
    verify_track t bits revs = true ↔
      (nr_missing (vfyReadback t bits revs) = 0
        ∧ t.sectors = (vfyReadback t bits revs).sectors) := by
  simp only [verify_track]
  split_ifs with h
  · simp only [Bool.false_eq_true, false_iff]
    rintro ⟨h0, _⟩
    exact h h0
  · have h0 : nr_missing (vfyReadback t bits revs) = 0 := by omega
    simp [h0, decide_eq_true_iff]

end GW
